import Mathlib

/-!
Verification of the two non-trivial components of `scripts/clean_analysis.py`
(a descriptive-statistics script over a coded scoping-review dataset):

* the **Code Extractor** — the semicolon/colon parsing of a free-text
  annotation field into limitation-code tokens (inlined in
  `analyze_specific_limitations` and `analyze_limitation_cooccurrence`), and
* the **Co-occurrence Aggregator** — the construction of the square
  co-occurrence count matrix over the top-10 codes in
  `analyze_limitation_cooccurrence`.

Fields are modelled as `Option String` (`none` is a missing / NaN cell,
skipped by `dropna` / `pd.notna`); a record is its list of category-field
values in column order; the dataset is the list of records.  The top-10 code
list is a parameter (`top`): the script derives it from overall frequencies
(keys of a Python dict, hence pairwise distinct), which the theorems reflect
as a `Nodup` hypothesis where it matters.
-/

/-- The characters removed by the Python strip method on ASCII input. -/
def isPySpace (c : Char) : Bool :=
  c == ' ' || c == '\t' || c == '\n' || c == '\r' || c == '\x0b' || c == '\x0c'

/-- The Python strip method: drop leading and trailing whitespace. -/
def pyStrip (s : String) : String :=
  String.mk (((s.data.dropWhile isPySpace).reverse.dropWhile isPySpace).reverse)

/-- The Python idiom of splitting on colons and keeping the first part: the
text before the first colon (the whole string when no colon occurs). -/
def beforeColon (s : String) : String :=
  String.mk (s.data.takeWhile (fun c => c ≠ ':'))

/-- Per-piece normalization applied to each already-stripped piece: when the
piece has a colon, the stripped text before the first colon, else the
stripped piece (the conditional expression on source lines 139 and 1087). -/
def codeKey (code : String) : String :=
  if code.data.contains ':' then pyStrip (beforeColon code) else pyStrip code

/-- The Python split method for a one-character separator, on the character
list: every occurrence of the separator ends a piece, empty pieces are kept,
and the empty string yields one single empty piece. -/
def splitChar (sep : Char) : List Char → List (List Char)
  | [] => [[]]
  | c :: cs =>
      match splitChar sep cs with
      | [] => [[]]
      | h :: t => if c == sep then [] :: h :: t else (c :: h) :: t

/-- The Python split on semicolons of the string form of a field value. -/
def pySplitSemi (s : String) : List String :=
  (splitChar ';' s.data).map String.mk

/-- Tokens of one non-missing field value: split on semicolons, strip each
piece, then apply the `codeKey` normalization to each piece (source lines
137-139 and 1085-1087, identical in both functions). -/
def extractTokens (value : String) : List String :=
  ((pySplitSemi value).map pyStrip).map codeKey

/-- The Code Extractor on a possibly missing field: `dropna` / `pd.notna`
means a missing field contributes no tokens at all. -/
def extractCodes : Option String → List String
  | none => []
  | some value => extractTokens value

/-- One study record: its category-field values, in column order. -/
abbrev Record := List (Option String)

/-- Field of record `r` in category column `c` (missing when the record has
no value there). -/
def fieldAt (r : Record) (c : Nat) : Option String :=
  r.getD c none

/-- The co-occurrence matrix as a total count function; labels outside the
top-code list are never incremented and stay `0`, matching the DataFrame
initialized to `0` over `top × top`. -/
abbrev Mat := String → String → Nat

/-- One increment of a single matrix cell through its label pair. -/
def bumpPair (m : Mat) (a b : String) : Mat :=
  fun x y => if x = a ∧ y = b then m x y + 1 else m x y

/-- The pair loop of `analyze_limitation_cooccurrence`:
`for i, lim1 in enumerate(present_limitations): for lim2 in
present_limitations[i+1:]:` increment `(lim1, lim2)` and `(lim2, lim1)`. -/
def addPairs : List String → Mat → Mat
  | [], m => m
  | l1 :: rest, m =>
      addPairs rest (rest.foldl (fun acc l2 => bumpPair (bumpPair acc l1 l2) l2 l1) m)

/-- The present-limitation list of one field value: the top codes that occur
among the tokens of the field, kept in top-list order (the list comprehension
on source line 1106). -/
def presentLimitations (top : List String) (value : String) : List String :=
  top.filter (fun lim => (extractTokens value).contains lim)

/-- Processing of one cell of one category column: `pd.notna` guard, token
extraction, and the pair loop. -/
def processValue (top : List String) (v : Option String) (m : Mat) : Mat :=
  match v with
  | none => m
  | some value => addPairs (presentLimitations top value) m

/-- The Co-occurrence Aggregator (source lines 1099-1111): a zero matrix,
then `for col in limitation_columns: for idx, value in df[col].items(): ...`
processing every (column, record) cell. -/
def cooccurrenceMatrix (top : List String) (ncols : Nat) (df : List Record) : Mat :=
  (List.range ncols).foldl
    (fun m c => df.foldl (fun acc r => processValue top (fieldAt r c) acc) m)
    (fun _ _ => 0)

/-- One step of the counting dict of `analyze_specific_limitations`
(source lines 140-144): bump the count of the key when present, else insert
the key with count 1, on an insertion-ordered association list, as a Python
dict is. -/
def bumpCount (counts : List (String × Nat)) (key : String) : List (String × Nat) :=
  if counts.any (fun p => p.1 == key) then
    counts.map (fun p => if p.1 == key then (p.1, p.2 + 1) else p)
  else
    counts ++ [(key, 1)]

/-- The full counting loop of `analyze_specific_limitations` (source lines
132-144): every token of every non-missing cell of every category column
bumps the count of its code. -/
def limitationCounts (df : List Record) (ncols : Nat) : List (String × Nat) :=
  (List.range ncols).foldl
    (fun counts col =>
      df.foldl (fun cs r => (extractCodes (fieldAt r col)).foldl bumpCount cs) counts)
    []

/-- Count recorded for code `c` (0 when `c` never occurred). -/
def countOf (counts : List (String × Nat)) (c : String) : Nat :=
  ((counts.find? (fun p => p.1 == c)).map Prod.snd).getD 0

/-- The derived percentage column of the frequency table: the recorded count
divided by the number of records, times 100 (source line 147), over exact
rationals. -/
def codePercentage (df : List Record) (ncols : Nat) (c : String) : ℚ :=
  (countOf (limitationCounts df ncols) c : ℚ) / (df.length : ℚ) * 100

/-- The notion of Code Frequency Table entry stated in the spec (section 3):
the number of records containing code `c` at least once across all category
fields, each record counted at most once per code. -/
def recordsContaining (df : List Record) (c : String) : Nat :=
  (df.filter (fun r => r.any (fun f => (extractCodes f).contains c))).length

/-- The deduplicated cross-field set of qualifying top-N codes of a record,
as stated in the spec (section 4.2): the duplicate-free sublist of `top` of
codes occurring in at least one field of the record. -/
def recordCodeSet (top : List String) (r : Record) : List String :=
  top.filter (fun lim => r.any (fun f => (extractCodes f).contains lim))

/-- The count stated in the spec for a matrix cell: the number of records
whose deduplicated cross-field code set contains both `i` and `j`. -/
def recordsWithBoth (top : List String) (df : List Record) (i j : String) : Nat :=
  (df.filter (fun r =>
    (recordCodeSet top r).contains i && (recordCodeSet top r).contains j)).length

/-- Sum of all off-diagonal entries of the matrix over the top-code labels. -/
def offDiagSum (top : List String) (m : Mat) : Nat :=
  (top.map (fun i => (top.map (fun j => if i = j then 0 else m i j)).sum)).sum

/-! ### Pointwise characterization of the aggregator -/

/-- Number of increments the pair loop performs on cell `(i, j)` when run on
the list `L` of present limitations. -/
def pairAdds : List String → String → String → Nat
  | [], _, _ => 0
  | a :: rest, i, j =>
      (if i = a then rest.count j else 0) + (if j = a then rest.count i else 0)
        + pairAdds rest i j

lemma innerFold_apply (a : String) (rest : List String) (m : Mat) (i j : String) :
    (rest.foldl (fun acc l2 => bumpPair (bumpPair acc a l2) l2 a) m) i j
      = m i j + ((if i = a then rest.count j else 0) + (if j = a then rest.count i else 0)) := by
  induction rest generalizing m with
  | nil => simp
  | cons b rest ih =>
      rw [List.foldl_cons, ih]
      simp only [bumpPair, List.count_cons, beq_iff_eq]
      split_ifs <;> first | omega | tauto

lemma addPairs_apply (L : List String) (m : Mat) (i j : String) :
    addPairs L m i j = m i j + pairAdds L i j := by
  induction L generalizing m with
  | nil => rfl
  | cons a rest ih =>
      rw [addPairs, ih, innerFold_apply, pairAdds]
      omega

lemma pairAdds_symm (L : List String) (i j : String) : pairAdds L i j = pairAdds L j i := by
  induction L with
  | nil => rfl
  | cons a rest ih => rw [pairAdds, pairAdds, ih]; omega

lemma pairAdds_diag {L : List String} (h : L.Nodup) (i : String) : pairAdds L i i = 0 := by
  induction L with
  | nil => rfl
  | cons a rest ih =>
      rcases List.nodup_cons.mp h with ⟨ha, hr⟩
      rw [pairAdds]
      by_cases hia : i = a
      · subst hia
        rw [if_pos rfl, List.count_eq_zero.mpr ha, ih hr]
      · rw [if_neg hia, ih hr]

lemma pairAdds_of_short {L : List String} (h : L.length ≤ 1) (i j : String) :
    pairAdds L i j = 0 := by
  match L with
  | [] => rfl
  | [a] => simp [pairAdds]
  | a :: b :: t => simp at h

/-- Increments that one (column, record) cell contributes to matrix cell
`(i, j)`. -/
def cellAdds (top : List String) (v : Option String) (i j : String) : Nat :=
  match v with
  | none => 0
  | some value => pairAdds (presentLimitations top value) i j

lemma processValue_apply (top : List String) (v : Option String) (m : Mat) (i j : String) :
    processValue top v m i j = m i j + cellAdds top v i j := by
  cases v with
  | none => simp [processValue, cellAdds]
  | some value => simp [processValue, cellAdds, addPairs_apply]

lemma recordsFold_apply (top : List String) (c : Nat) (df : List Record) (m : Mat)
    (i j : String) :
    (df.foldl (fun acc r => processValue top (fieldAt r c) acc) m) i j
      = m i j + (df.map (fun r => cellAdds top (fieldAt r c) i j)).sum := by
  induction df generalizing m with
  | nil => simp
  | cons r df ih =>
      rw [List.foldl_cons, ih, processValue_apply, List.map_cons, List.sum_cons]
      omega

lemma colsFold_apply (top : List String) (cols : List Nat) (df : List Record) (m : Mat)
    (i j : String) :
    (cols.foldl (fun m c => df.foldl (fun acc r => processValue top (fieldAt r c) acc) m) m) i j
      = m i j
        + (cols.map (fun c => (df.map (fun r => cellAdds top (fieldAt r c) i j)).sum)).sum := by
  induction cols generalizing m with
  | nil => simp
  | cons c cols ih =>
      rw [List.foldl_cons, ih, recordsFold_apply, List.map_cons, List.sum_cons]
      omega

/-- Closed form of the aggregator: each matrix cell is the total of the
per-(column, record)-cell contributions. -/
lemma cooccurrenceMatrix_apply (top : List String) (ncols : Nat) (df : List Record)
    (i j : String) :
    cooccurrenceMatrix top ncols df i j
      = ((List.range ncols).map
          (fun c => (df.map (fun r => cellAdds top (fieldAt r c) i j)).sum)).sum := by
  unfold cooccurrenceMatrix
  rw [colsFold_apply]
  exact Nat.zero_add _

lemma cellAdds_symm (top : List String) (v : Option String) (i j : String) :
    cellAdds top v i j = cellAdds top v j i := by
  cases v with
  | none => rfl
  | some value => exact pairAdds_symm _ i j

lemma cellAdds_diag {top : List String} (h : top.Nodup) (v : Option String) (i : String) :
    cellAdds top v i i = 0 := by
  cases v with
  | none => rfl
  | some value => exact pairAdds_diag (h.filter _) i

/-! ### Claims about the Code Extractor -/

/-- The extractor algorithm as the spec words it (section 4.1): split the
string on semicolons, trim each piece, then take the text before the first
colon when a colon is present (else the whole piece) and trim again, in
source order, duplicates preserved. -/
def specExtractTokens (value : String) : List String :=
  (pySplitSemi value).map (fun piece =>
    pyStrip (if (pyStrip piece).data.contains ':' then beforeColon (pyStrip piece)
             else pyStrip piece))

/-- C5: on every non-missing field value the Code Extractor returns exactly
the token sequence described by the spec (split on semicolons, trim, text
before the first colon, trim again, source order, duplicates preserved); in
particular the two example inputs of the spec give the stated outputs. -/
theorem extractTokens_matches_spec :
    (∀ value : String, extractTokens value = specExtractTokens value)
    ∧ extractTokens ("A: reason one; B: reason two") = ["A", "B"]
    ∧ extractTokens ("A;B;A") = ["A", "B", "A"] := by
  refine ⟨fun value => ?_, rfl, rfl⟩
  unfold extractTokens specExtractTokens
  rw [List.map_map]
  apply List.map_congr_left
  intro piece _
  show codeKey (pyStrip piece) = _
  rw [codeKey, apply_ite pyStrip]

/-- C7: a missing field yields an empty token sequence, and therefore
contributes nothing downstream: processing it leaves the co-occurrence
matrix untouched and the frequency-count fold unchanged. -/
theorem extractCodes_missing_is_empty :
    extractCodes none = []
    ∧ (∀ (top : List String) (m : Mat), processValue top none m = m)
    ∧ (∀ cs : List (String × Nat), (extractCodes none).foldl bumpCount cs = cs) :=
  ⟨rfl, fun _ _ => rfl, fun _ => rfl⟩

/-- C8: a piece that is empty after trimming yields an empty-string token,
a piece beginning with a colon yields an empty-string code token, and no
piece is dropped (the extractor returns one token per split piece); the
concrete inputs show the empty tokens in the output. -/
theorem extractor_empty_and_colon_pieces (piece : String) (hp : pyStrip piece = "")
    (s : String) (hs : s.data.head? = some ':') :
    codeKey (pyStrip piece) = ""
    ∧ codeKey s = ""
    ∧ (∀ value : String, (extractTokens value).length = (pySplitSemi value).length)
    ∧ extractTokens ("A;;B") = ["A", "", "B"]
    ∧ extractTokens ("A; :x") = ["A", ""] := by
  refine ⟨by rw [hp]; rfl, ?_, fun value => by simp [extractTokens], rfl, rfl⟩
  obtain ⟨t, hdata⟩ : ∃ t, s.data = ':' :: t := by
    cases hd : s.data with
    | nil => rw [hd] at hs; simp at hs
    | cons c t =>
        rw [hd] at hs
        simp at hs
        exact ⟨t, by rw [hs]⟩
  have hcon : s.data.contains ':' = true := by
    rw [hdata]
    simp [List.contains_cons]
  have hbc : beforeColon s = "" := by
    unfold beforeColon
    rw [hdata]
    simp [List.takeWhile_cons]
  rw [codeKey, if_pos hcon, hbc]
  rfl

/-- Witness for C8 at concrete inputs: a blank piece and a piece starting
with a colon. -/
theorem extractor_empty_and_colon_pieces_witness :
    pyStrip (" ") = "" ∧ (":x").data.head? = some ':'
    ∧ (codeKey (pyStrip (" ")) = ""
        ∧ codeKey (":x") = ""
        ∧ (∀ value : String, (extractTokens value).length = (pySplitSemi value).length)
        ∧ extractTokens ("A;;B") = ["A", "", "B"]
        ∧ extractTokens ("A; :x") = ["A", ""]) :=
  ⟨rfl, rfl, extractor_empty_and_colon_pieces (" ") rfl (":x") rfl⟩

/-! ### Claims about the Co-occurrence Aggregator -/

/-- C6: the completed co-occurrence matrix is symmetric in its two labels,
for every top-code list, column count and dataset. -/
theorem cooccurrenceMatrix_symm (top : List String) (ncols : Nat) (df : List Record)
    (i j : String) :
    cooccurrenceMatrix top ncols df i j = cooccurrenceMatrix top ncols df j i := by
  rw [cooccurrenceMatrix_apply, cooccurrenceMatrix_apply]
  apply congrArg List.sum
  apply List.map_congr_left
  intro c _
  apply congrArg List.sum
  apply List.map_congr_left
  intro r _
  exact cellAdds_symm top (fieldAt r c) i j

/-- C10: every diagonal entry of the completed co-occurrence matrix is 0:
the per-field present-limitation list repeats no code, so no increment ever
hits a diagonal cell. -/
theorem cooccurrenceMatrix_diag_zero (top : List String) (ncols : Nat) (df : List Record)
    (i : String) (h : top.Nodup) :
    cooccurrenceMatrix top ncols df i i = 0 := by
  rw [cooccurrenceMatrix_apply]
  apply List.sum_eq_zero
  intro x hx
  rcases List.mem_map.mp hx with ⟨c, _, rfl⟩
  apply List.sum_eq_zero
  intro y hy
  rcases List.mem_map.mp hy with ⟨r, _, rfl⟩
  exact cellAdds_diag h (fieldAt r c) i

/-- Witness for C10 at a concrete dataset. -/
theorem cooccurrenceMatrix_diag_zero_witness :
    (["A", "B"] : List String).Nodup
    ∧ cooccurrenceMatrix ["A", "B"] 5 [[some ("A;B"), some ("A;B"), none, none, none]]
        ("A") ("A") = 0 :=
  ⟨by decide, cooccurrenceMatrix_diag_zero _ _ _ _ (by decide)⟩

lemma length_filter_le_of_imp {α : Type} (l : List α) (p q : α → Bool)
    (h : ∀ a, p a = true → q a = true) :
    (l.filter p).length ≤ (l.filter q).length := by
  induction l with
  | nil => simp
  | cons a t ih =>
      by_cases hp : p a = true
      · rw [List.filter_cons_of_pos hp, List.filter_cons_of_pos (h a hp)]
        simpa using ih
      · rw [List.filter_cons_of_neg (by simpa using hp)]
        by_cases hq : q a = true
        · rw [List.filter_cons_of_pos hq]
          exact le_trans ih (by simp)
        · rw [List.filter_cons_of_neg (by simpa using hq)]
          exact ih

lemma mem_of_fieldAt {r : Record} {c : Nat} {s : String} (h : fieldAt r c = some s) :
    some s ∈ r := by
  unfold fieldAt at h
  rw [List.getD_eq_getD_get?] at h
  cases hg : r.get? c with
  | none => rw [hg] at h; simp at h
  | some v =>
      rw [hg] at h
      simp at h
      exact h ▸ List.get?_mem hg

lemma cellAdds_of_record_short {top : List String} {r : Record}
    (hr : (recordCodeSet top r).length ≤ 1) (c : Nat) (i j : String) :
    cellAdds top (fieldAt r c) i j = 0 := by
  cases hf : fieldAt r c with
  | none => rfl
  | some s =>
      have hmem : some s ∈ r := mem_of_fieldAt hf
      have hlen : (presentLimitations top s).length ≤ (recordCodeSet top r).length := by
        unfold presentLimitations recordCodeSet
        apply length_filter_le_of_imp
        intro lim hp
        apply List.any_eq_true.mpr
        exact ⟨some s, hmem, hp⟩
      exact pairAdds_of_short (le_trans hlen hr) i j

/-- C9: a record whose deduplicated cross-field set of qualifying top codes
has size zero or one changes no cell of the co-occurrence matrix: appending
it to any dataset leaves every cell as it was. -/
theorem cooccurrence_short_record_adds_nothing (top : List String) (ncols : Nat)
    (df : List Record) (r : Record) (i j : String) (_htop : top.Nodup)
    (hr : (recordCodeSet top r).length ≤ 1) :
    cooccurrenceMatrix top ncols (df ++ [r]) i j = cooccurrenceMatrix top ncols df i j := by
  rw [cooccurrenceMatrix_apply, cooccurrenceMatrix_apply]
  apply congrArg List.sum
  apply List.map_congr_left
  intro c _
  rw [List.map_append, List.sum_append]
  simp only [List.map_cons, List.map_nil, List.sum_cons, List.sum_nil]
  rw [cellAdds_of_record_short hr c i j]
  omega

/-- Witness for C9: a record carrying the single top code A twice still
contributes nothing. -/
theorem cooccurrence_short_record_adds_nothing_witness :
    (["A", "B"] : List String).Nodup
    ∧ (recordCodeSet ["A", "B"] [some ("A"), some ("A;A"), none, none, none]).length ≤ 1
    ∧ cooccurrenceMatrix ["A", "B"] 5
        ([] ++ [[some ("A"), some ("A;A"), none, none, none]]) ("A") ("B")
        = cooccurrenceMatrix ["A", "B"] 5 [] ("A") ("B") :=
  ⟨by decide, by decide,
    cooccurrence_short_record_adds_nothing ["A", "B"] 5 []
      [some ("A"), some ("A;A"), none, none, none] ("A") ("B") (by decide) (by decide)⟩

/-! ### Evaluations exhibiting the per-field counting of the aggregator and
the per-token counting of the frequency table -/

/-- C1: evaluation at a record that reports the pair A, B in two of its five
category fields.  The aggregator increments the cell once per field, so the
cell holds 2, while only 1 record has both codes in its deduplicated
cross-field code set — the per-record invariant stated by the spec fails on
the code. -/
theorem cooccurrence_pair_in_two_fields_counts_twice :
    cooccurrenceMatrix ["A", "B"] 5 [[some ("A;B"), some ("A;B"), none, none, none]]
        ("A") ("B") = 2
    ∧ recordsWithBoth ["A", "B"] [[some ("A;B"), some ("A;B"), none, none, none]]
        ("A") ("B") = 1 :=
  ⟨rfl, rfl⟩

/-- C2: evaluation at a single record whose one non-missing field repeats
code A.  The frequency loop counts every token, so the table records 2 and
the derived percentage is 200 percent, while only 1 of the 1 records
contains A — the record-level description stated by the spec fails on the
code. -/
theorem frequency_counts_tokens_not_records :
    countOf (limitationCounts [[some ("A;A"), none, none, none, none]] 5) ("A") = 2
    ∧ recordsContaining [[some ("A;A"), none, none, none, none]] ("A") = 1
    ∧ codePercentage [[some ("A;A"), none, none, none, none]] 5 ("A") = 200 := by
  refine ⟨rfl, rfl, ?_⟩
  have h1 : countOf (limitationCounts [[some ("A;A"), none, none, none, none]] 5) ("A") = 2 :=
    rfl
  have h2 : ([[some ("A;A"), none, none, none, none]] : List Record).length = 1 := rfl
  unfold codePercentage
  rw [h1, h2]
  norm_num

/-- C3: evaluation at a record whose deduplicated cross-field code set is
exactly A, B, C, one code per field.  The aggregator forms pairs only inside
a single field, so no cell is incremented at all, against the three pair
increments the spec states. -/
theorem codes_in_separate_fields_add_nothing :
    recordCodeSet ["A", "B", "C"] [some ("A"), some ("B"), some ("C"), none, none]
        = ["A", "B", "C"]
    ∧ cooccurrenceMatrix ["A", "B", "C"] 5
        [[some ("A"), some ("B"), some ("C"), none, none]] ("A") ("B") = 0
    ∧ cooccurrenceMatrix ["A", "B", "C"] 5
        [[some ("A"), some ("B"), some ("C"), none, none]] ("B") ("C") = 0
    ∧ cooccurrenceMatrix ["A", "B", "C"] 5
        [[some ("A"), some ("B"), some ("C"), none, none]] ("A") ("C") = 0 :=
  ⟨rfl, rfl, rfl, rfl⟩

set_option maxRecDepth 8000

/-- C4: evaluation at a single record listing all ten top codes in two of
its five category fields.  Each such field contributes all 45 unordered
pairs, so half the off-diagonal sum is 90, exceeding the bound of
1 record x C(10, 2) = 45 stated by the spec. -/
theorem offdiag_sum_exceeds_per_record_bound :
    offDiagSum ["A", "B", "C", "D", "E", "F", "G", "H", "I", "J"]
        (cooccurrenceMatrix ["A", "B", "C", "D", "E", "F", "G", "H", "I", "J"] 5
          [[some ("A;B;C;D;E;F;G;H;I;J"), some ("A;B;C;D;E;F;G;H;I;J"),
            none, none, none]]) = 180
    ∧ ¬ (offDiagSum ["A", "B", "C", "D", "E", "F", "G", "H", "I", "J"]
          (cooccurrenceMatrix ["A", "B", "C", "D", "E", "F", "G", "H", "I", "J"] 5
            [[some ("A;B;C;D;E;F;G;H;I;J"), some ("A;B;C;D;E;F;G;H;I;J"),
              none, none, none]]) / 2
        ≤ ([[some ("A;B;C;D;E;F;G;H;I;J"), some ("A;B;C;D;E;F;G;H;I;J"),
             none, none, none]] : List Record).length * Nat.choose 10 2) := by
  constructor
  · decide
  · decide
